import Mathlib

/-!
Shallow embedding of `src/timer/main.go` (an interactive countdown-timer CLI)
and proofs about its command dispatch, duration parsing, task queue, timer
tick protocol and history log format.

Go strings are modelled as Lean `String`s, with the character-level logic
carried out on their underlying `List Char`.  The 64-bit signed integer
arithmetic (`time.Duration` is an `int64` count of nanoseconds) is modelled
by `Int` together with an explicit wrap `wrap64` at two's-complement width 64.
-/

namespace Timer

/-- Wrap of an integer to the signed 64-bit range of two-complement
arithmetic, modelling the Go `int64` operations of `time.Duration`. -/
def wrap64 (x : Int) : Int :=
  (x + 9223372036854775808) % 18446744073709551616 - 9223372036854775808

/-- Models Go `strings.HasPrefix` on the character level. -/
def hasPrefixChars : List Char → List Char → Bool
  | [], _ => true
  | _ :: _, [] => false
  | p :: ps, c :: cs => p == c && hasPrefixChars ps cs

/-- Models Go `unicode.IsSpace` for the characters that can occur in a
command line (ASCII whitespace plus NEL and NBSP). -/
def isGoSpace (c : Char) : Bool :=
  c == ' ' || c == '\t' || c == '\n' || c == '\r' ||
    c.toNat == 11 || c.toNat == 12 || c.toNat == 0x85 || c.toNat == 0xA0

/-- Accumulator worker for `goFieldsChars`: `acc` holds the characters of the
current word in reverse. -/
def fieldsAux : List Char → List Char → List (List Char)
  | [], acc => if acc.isEmpty then [] else [acc.reverse]
  | c :: rest, acc =>
    if isGoSpace c then
      if acc.isEmpty then fieldsAux rest [] else acc.reverse :: fieldsAux rest []
    else fieldsAux rest (c :: acc)

/-- Models Go `strings.Fields`: split around runs of whitespace, dropping
empty fields. -/
def goFieldsChars (s : List Char) : List (List Char) :=
  fieldsAux s []

/-- Models Go `strings.Join(words, " ")`. -/
def joinSpace : List (List Char) → List Char
  | [] => []
  | [w] => w
  | w :: ws => w ++ ' ' :: joinSpace ws

/-- Models Go `strings.ToLower` on one character (ASCII range; the command
keywords compared against are ASCII). -/
def asciiLowerChar (c : Char) : Char :=
  if 'A' ≤ c ∧ c ≤ 'Z' then Char.ofNat (c.toNat + 32) else c

/-- Models Go `strings.ToLower` (ASCII range). -/
def asciiLower (s : String) : String :=
  ⟨s.data.map asciiLowerChar⟩

/-! ### strconv.ParseInt with base 0

The `Int` flags of the `flag` package call `strconv.ParseInt(value, 0, 64)`.
Base 0 means: an optional sign, then an optional base prefix
(`0b`/`0o`/`0x`, or a bare leading `0` meaning octal), then digits, with
`_` digit separators allowed only in the positions `underscoreOKGo` admits.
Errors are reduced to the two sentinels the `flag` package reports:
`"parse error"` (syntax) and `"value out of range"`. -/

/-- The `lower` helper of Go `strconv` on a byte: force the ASCII case bit. -/
def lowerNat (n : Nat) : Nat := n ||| 32

/-- Digit value of a character as in the scan loop of `ParseUint`: `0`-`9`, then
case-insensitive `a`-`z` for values 10-35; anything else is no digit. -/
def digitVal (c : Char) : Option Nat :=
  let n := c.toNat
  if 48 ≤ n ∧ n ≤ 57 then some (n - 48)
  else
    let l := lowerNat n
    if 97 ≤ l ∧ l ≤ 122 then some (l - 97 + 10) else none

/-- One step of the scan of Go `strconv.underscoreOK`.  `saw` is the last
significant character class seen: `'^'` nothing, `'0'` digit or base
prefix, `'_'` underscore, `'!'` anything else. -/
def underscoreLoop (hex : Bool) : Char → List Char → Bool
  | saw, [] => saw ≠ '_'
  | saw, c :: rest =>
    if (48 ≤ c.toNat ∧ c.toNat ≤ 57) ∨ (hex ∧ 97 ≤ lowerNat c.toNat ∧ lowerNat c.toNat ≤ 102) then
      underscoreLoop hex '0' rest
    else if c = '_' then
      if saw ≠ '0' then false else underscoreLoop hex '_' rest
    else if saw = '_' then false
    else underscoreLoop hex '!' rest

/-- Models Go `strconv.underscoreOK`: underscores may separate digits or
follow a base prefix, nothing else. -/
def underscoreOKGo (s : List Char) : Bool :=
  let s1 := match s with
    | c :: rest => if c = '-' ∨ c = '+' then rest else s
    | [] => s
  match s1 with
  | '0' :: c :: rest =>
    if lowerNat c.toNat = 98 ∨ lowerNat c.toNat = 111 ∨ lowerNat c.toNat = 120 then
      underscoreLoop (lowerNat c.toNat = 120) '0' rest
    else underscoreLoop false '^' s1
  | _ => underscoreLoop false '^' s1

/-- Digit-scan loop of `strconv.ParseUint`: exact accumulated value plus
whether an underscore was skipped; `none` on a non-digit. -/
def goDigitsAux (base : Nat) : List Char → Nat → Bool → Option (Nat × Bool)
  | [], acc, us => some (acc, us)
  | c :: rest, acc, us =>
    if c = '_' then goDigitsAux base rest acc true
    else
      match digitVal c with
      | none => none
      | some d => if base ≤ d then none else goDigitsAux base rest (acc * base + d) us

/-- Numeric-conversion failure, as the `flag` package reports it. -/
inductive NumErr
  | syn
  | range
  deriving DecidableEq, Repr

/-- Models `strconv.ParseUint(s, 0, 64)` applied to the unsigned part `s0`;
`full` is the original signed string, consulted by the underscore check. -/
def parseGoUint (s0 full : List Char) : Except NumErr Nat :=
  match s0 with
  | [] => .error .syn
  | _ =>
    let (base, ds) :=
      match s0 with
      | '0' :: c :: rest =>
        if lowerNat c.toNat = 98 ∧ rest ≠ [] then (2, rest)
        else if lowerNat c.toNat = 111 ∧ rest ≠ [] then (8, rest)
        else if lowerNat c.toNat = 120 ∧ rest ≠ [] then (16, rest)
        else (8, c :: rest)
      | '0' :: rest => (8, rest)
      | _ => (10, s0)
    match goDigitsAux base ds 0 false with
    | none => .error .syn
    | some (v, us) =>
      if us ∧ ¬ underscoreOKGo full then .error .syn
      else if 18446744073709551615 < v then .error .range
      else .ok v

/-- Models `strconv.ParseInt(s, 0, 64)`, the conversion behind the
`-h`/`-m`/`-s` integer flags: optional sign, `ParseUint`, signed-range
check against `2^63`. -/
def parseGoInt (s : List Char) : Except NumErr Int :=
  match s with
  | [] => .error .syn
  | _ =>
    let (neg, s1) :=
      match s with
      | '+' :: rest => (false, rest)
      | '-' :: rest => (true, rest)
      | _ => (false, s)
    match parseGoUint s1 s with
    | .error .syn => .error .syn
    | .error .range => .error .range
    | .ok v =>
      if ¬ neg ∧ 9223372036854775808 ≤ v then .error .range
      else if neg ∧ 9223372036854775808 < v then .error .range
      else if neg then .ok (-(v : Int)) else .ok (v : Int)

/-- The three registered duration flags, as Go `int` values. -/
structure FlagState where
  h : Int
  m : Int
  s : Int
  deriving DecidableEq, Repr

/-- Store a parsed value into the flag it was given for. -/
def setFlag (st : FlagState) (nm : List Char) (v : Int) : FlagState :=
  if nm = ['h'] then { st with h := v }
  else if nm = ['m'] then { st with m := v }
  else { st with s := v }

/-- Split a flag body at its first `=` into name and inline value (the Go
`parseOne` scans for `=` past the first character, which is known not to
be `=` when this is called). -/
def splitEq : List Char → List Char × Option (List Char)
  | [] => ([], none)
  | '=' :: rest => ([], some rest)
  | c :: rest =>
    let (a, b) := splitEq rest
    (c :: a, b)

/-- Render a `NumErr` the way the `errParse`/`errRange` sentinels of the
`flag` package print. -/
def numErrMsg : NumErr → String
  | .syn => "parse error"
  | .range => "value out of range"

/-- The "invalid value %q for flag -%s: %v" message of the `flag` package. -/
def invalidValueMsg (v nm : List Char) (e : NumErr) : String :=
  "invalid value \"" ++ ⟨v⟩ ++ "\" for flag -" ++ ⟨nm⟩ ++ ": " ++ numErrMsg e

/-- Models the `FlagSet.Parse` loop over the flag set of `parseDuration` (flags
`-h`, `-m`, `-s`, `flag.ContinueOnError`), one token per step.  The Go
`parseOne` takes the value of a flag either from the text after `=` or,
unconditionally, from the next argument; the latter case is carried here
as a pending flag name consumed by the following step (with the
"flag needs an argument" error when the arguments are exhausted).
Scanning stops without error at the first token that is not a flag
(shorter than two characters or without a leading `-`) and at `--`. -/
def parseFlags : Option (List Char) → List (List Char) → FlagState → Except String FlagState
  | some nm, [], _ => .error ("flag needs an argument: -" ++ ⟨nm⟩)
  | some nm, v :: rest, st =>
    match parseGoInt v with
    | .error e => .error (invalidValueMsg v nm e)
    | .ok n => parseFlags none rest (setFlag st nm n)
  | none, [], st => .ok st
  | none, tok :: rest, st =>
    if tok.length < 2 ∨ tok.head? ≠ some '-' then .ok st
    else if tok = ['-', '-'] then .ok st
    else
      let body := if tok.get? 1 = some '-' then tok.drop 2 else tok.drop 1
      match body with
      | [] => .error ("bad flag syntax: " ++ ⟨tok⟩)
      | c :: _ =>
        if c = '-' ∨ c = '=' then .error ("bad flag syntax: " ++ ⟨tok⟩)
        else
          let p := splitEq body
          if p.1 ≠ ['h'] ∧ p.1 ≠ ['m'] ∧ p.1 ≠ ['s'] then
            if p.1 = "help".data then .error "flag: help requested"
            else .error ("flag provided but not defined: -" ++ ⟨p.1⟩)
          else
            match p.2 with
            | some v =>
              match parseGoInt v with
              | .error e => .error (invalidValueMsg v p.1 e)
              | .ok n => parseFlags none rest (setFlag st p.1 n)
            | none => parseFlags (some p.1) rest st

/-- Nanoseconds per hour, minute, second (`time.Hour` etc.). -/
def hourNs : Int := 3600000000000

/-- Nanoseconds in `time.Minute`. -/
def minuteNs : Int := 60000000000

/-- Nanoseconds in `time.Second`. -/
def secondNs : Int := 1000000000

/-- Embeds `parseDuration` (main.go:25-43): split the input into fields,
run the flag set over them, reject any negative flag value, and sum
`h*Hour + m*Minute + s*Second` in wrapping `int64` nanoseconds. -/
def parseDuration (input : String) : Except String Int :=
  match parseFlags none (goFieldsChars input.data) ⟨0, 0, 0⟩ with
  | .error e => .error e
  | .ok st =>
    if st.h < 0 ∨ st.m < 0 ∨ st.s < 0 then .error "negative values not allowed"
    else
      .ok (wrap64 (wrap64 (wrap64 (st.h * hourNs) + wrap64 (st.m * minuteNs)) +
        wrap64 (st.s * secondNs)))

/-- A queued task (main.go:13-16): display name plus `time.Duration` in
nanoseconds. -/
structure Task where
  name : String
  durationNs : Int
  deriving DecidableEq, Repr

/-- Observable outcome of dispatching one command line in
`processCommand` (main.go:185-229). -/
inductive Action
  | exitCmd
  | unknown
  | invalidFormat
  | parseErr (msg : String)
  | nonPositive
  | added (name : String) (durationNs : Int)
  deriving DecidableEq, Repr

/-- The argument tokens of an `add` line: all whitespace fields after the
leading `add` (main.go:196). -/
def addArgs (cmd : String) : List (List Char) :=
  (goFieldsChars cmd.data).drop 1

/-- Scan worker of `flagsIdx` carrying the current index. -/
def flagsIdxGo : Nat → List (List Char) → Nat
  | _, [] => 0
  | i, a :: rest => if hasPrefixChars ['-'] a then i else flagsIdxGo (i + 1) rest

/-- The flag-index scan of main.go:197-203: index of the first token that
starts with `-`, with the zero value of `flagsIndex` left in place when no
such token exists. -/
def flagsIdx (args : List (List Char)) : Nat :=
  flagsIdxGo 0 args

/-- Embeds `processCommand` (main.go:185-229): `exit` match, `add `
prefix check, name/flag split at the first `-` token, duration parse and
positivity check. -/
def processCommand (cmd : String) : Action :=
  if asciiLower cmd = "exit" then .exitCmd
  else if ¬ (hasPrefixChars "add ".data cmd.data = true) then .unknown
  else if flagsIdx (addArgs cmd) = 0 then .invalidFormat
  else
    match parseDuration ⟨joinSpace ((addArgs cmd).drop (flagsIdx (addArgs cmd)))⟩ with
    | .error e => .parseErr e
    | .ok d =>
      if d ≤ 0 then .nonPositive
      else .added ⟨joinSpace ((addArgs cmd).take (flagsIdx (addArgs cmd)))⟩ d

/-- Effect of a dispatched command on the shared task queue: an accepted
`add` appends at the tail (main.go:224-226); every other action leaves the
queue unchanged. -/
def applyAction (a : Action) (q : List Task) : List Task :=
  match a with
  | .added n d => q ++ [⟨n, d⟩]
  | _ => q

example : processCommand "add X" = .invalidFormat := by decide
example : processCommand "add -m 5" = .invalidFormat := by decide
example : processCommand "add Study Session -m 25" = .added "Study Session" 1500000000000 := by decide
example : processCommand "exit" = .exitCmd := by decide
example : processCommand "EXIT" = .exitCmd := by decide
example : processCommand "hello" = .unknown := by decide
example : parseDuration "-h 1 -m 2 -s 3" = .ok 3723000000000 := rfl
example : parseDuration "-s -1" = .error "negative values not allowed" := rfl
example : parseDuration "-m 5 junk" = .ok 300000000000 := rfl
example : parseDuration "5" = .ok 0 := rfl
example : parseDuration "-x 1" = .error "flag provided but not defined: -x" := rfl
example : parseDuration "-m foo" = .error "invalid value \"foo\" for flag -m: parse error" := rfl
example : parseDuration "" = .ok 0 := rfl
example : processCommand "add X -m 0" = .nonPositive := by decide

/-! ### Timer tick protocol

`startTimer` (main.go:45-63) computes `endTime = now + duration` and then,
on a one-second ticker, prints the rounded remaining time while it is
positive and a single "Completed!" line once it is not, returning
immediately after.  Under ideal one-second ticks the rounded remaining
time at the `k`-th tick of a whole-`n`-second timer is `n - k`, which the
discrete model below follows. -/

/-- One console observation of the running timer: an in-place progress
line showing the rounded remaining whole seconds, or the terminal
`Completed!` line. -/
inductive Obs
  | progress (remainingSec : Nat)
  | completed
  deriving DecidableEq, Repr

/-- Embeds the tick loop of `startTimer` (main.go:52-62) for a timer of
`n` whole seconds under ideal one-second ticks: at tick `k` the remaining
time is `n - k`; while positive a progress line is emitted, otherwise the
single completion line is emitted and the loop returns. -/
def timerObs : Nat → List Obs
  | 0 => [.completed]
  | 1 => [.completed]
  | n + 2 => .progress (n + 1) :: timerObs (n + 1)

/-- Whether an observation is a progress line. -/
def isProgress : Obs → Bool
  | .progress _ => true
  | _ => false

/-- Whether an observation is the completion line. -/
def isCompletedObs : Obs → Bool
  | .completed => true
  | _ => false

/-- The remaining-seconds values shown by the progress lines, in emission
order. -/
def progressValues (l : List Obs) : List Nat :=
  l.filterMap fun o => match o with | .progress r => some r | _ => none

example : timerObs 3 = [.progress 2, .progress 1, .completed] := rfl

/-! ### History log format

`logHistory` (main.go:65-80) appends one line
`name|Duration.String()|timestamp "2006-01-02 15:04:05"` to the log file;
`showHistory` (main.go:82-105) splits each line on `|` and displays the
three fields, silently skipping lines that do not split into exactly
three. -/

/-- The decimal digit character for `m < 10`. -/
def digitCh (m : Nat) : Char := Char.ofNat (48 + m)

/-- Fuel-indexed worker for `natDigits`; the fuel only bounds the digit
count, which `n` itself always does. -/
def natDigitsGo : Nat → Nat → List Char → List Char
  | 0, n, acc => digitCh (n % 10) :: acc
  | fuel + 1, n, acc =>
    if n < 10 then digitCh n :: acc else natDigitsGo fuel (n / 10) (digitCh (n % 10) :: acc)

/-- Decimal rendering of a natural number, modelling the `fmtInt` of `time`. -/
def natDigits (n : Nat) : List Char := natDigitsGo n n []

/-- Left-pad with `'0'` to width `w`. -/
def padZeros (l : List Char) (w : Nat) : List Char :=
  List.replicate (w - l.length) '0' ++ l

/-- Remove trailing `'0'` characters. -/
def dropTrailingZeros (l : List Char) : List Char :=
  (l.reverse.dropWhile (· == '0')).reverse

/-- Models the `fmtFrac` of `time`: the `.fraction` suffix for the low `prec`
decimal digits of `u` (trailing zeros omitted, the whole suffix omitted
when the fraction is zero) together with `u` shifted right by `prec`
digits. -/
def fmtFrac (u : Nat) (prec : Nat) : List Char × Nat :=
  let frac := u % 10 ^ prec
  let rest := u / 10 ^ prec
  if frac = 0 then ([], rest)
  else ('.' :: dropTrailingZeros (padZeros (natDigits frac) prec), rest)

/-- Unit-formatting core of `Duration.format` on the absolute value `u`
in nanoseconds: sub-second durations use `ns`/`µs`/`ms` with a fraction,
others use `[h][m]s` with seconds carrying the fraction. -/
def durationCore (u : Nat) : List Char :=
  if u < 1000000000 then
    if u < 1000 then natDigits u ++ ['n', 's']
    else if u < 1000000 then
      natDigits (fmtFrac u 3).2 ++ (fmtFrac u 3).1 ++ ['µ', 's']
    else
      natDigits (fmtFrac u 6).2 ++ (fmtFrac u 6).1 ++ ['m', 's']
  else
    let secs := natDigits ((fmtFrac u 9).2 % 60) ++ (fmtFrac u 9).1 ++ ['s']
    let u3 := (fmtFrac u 9).2 / 60
    if u3 = 0 then secs
    else
      let mins := natDigits (u3 % 60) ++ 'm' :: secs
      if u3 / 60 = 0 then mins else natDigits (u3 / 60) ++ 'h' :: mins

/-- Character-level body of `Duration.String`: zero prints as `0s`, a
negative duration gets a `-` sign before the core of its absolute
value. -/
def durationChars (d : Int) : List Char :=
  if d = 0 then ['0', 's']
  else if d < 0 then '-' :: durationCore d.natAbs
  else durationCore d.natAbs

/-- Models Go `time.Duration.String()`, the canonical duration text
written into the history log (main.go:74). -/
def durationString (d : Int) : String := ⟨durationChars d⟩

example : durationString 90000000000 = "1m30s" := rfl
example : durationString 3723000000000 = "1h2m3s" := rfl
example : durationString 0 = "0s" := rfl
example : durationString 1500 = "1.5µs" := rfl
example : durationString (-60000000000) = "-1m0s" := rfl
example : durationString 3600000000000 = "1h0m0s" := rfl

/-- Two-digit zero-padded decimal, as in the `01 02 15 04 05` layout
fields. -/
def pad2 (n : Nat) : List Char := if n < 10 then '0' :: natDigits n else natDigits n

/-- Four-digit zero-padded decimal, as in the `2006` layout field. -/
def pad4 (n : Nat) : List Char := padZeros (natDigits n) 4

/-- Models `time.Now().Format("2006-01-02 15:04:05")` for given calendar
components (main.go:75). -/
def formatTimestamp (y mo d hh mi ss : Nat) : String :=
  ⟨pad4 y ++ '-' :: pad2 mo ++ '-' :: pad2 d ++ ' ' :: pad2 hh ++
    ':' :: pad2 mi ++ ':' :: pad2 ss⟩

example : formatTimestamp 2026 10 11 9 30 5 = "2026-10-11 09:30:05" := rfl

/-- The history line `logHistory` writes for a task, without its trailing
newline; `ts` stands for the formatted wall-clock timestamp
(main.go:72-76). -/
def historyLine (t : Task) (ts : String) : String :=
  t.name ++ "|" ++ durationString t.durationNs ++ "|" ++ ts

/-- The full appended record, newline included. -/
def logEntry (t : Task) (ts : String) : String := historyLine t ts ++ "\n"

/-- Models Go `strings.Split(line, "|")`. -/
def splitPipeChars : List Char → List (List Char)
  | [] => [[]]
  | c :: rest =>
    if c = '|' then [] :: splitPipeChars rest
    else
      match splitPipeChars rest with
      | [] => [[c]]
      | t :: ts => (c :: t) :: ts

/-- `strings.Split` on `|` at the `String` level. -/
def splitPipe (s : String) : List String :=
  (splitPipeChars s.data).map fun l => ⟨l⟩

/-- The per-line read path of `showHistory` (main.go:97-102): split on
`|`, skip the line unless it has exactly three fields, otherwise display
`(task, duration, completed)`. -/
def parseHistoryLine (line : String) : Option (String × String × String) :=
  match splitPipe line with
  | [a, b, c] => some (a, b, c)
  | _ => none

example : parseHistoryLine (historyLine ⟨"Focus", 90000000000⟩ "2026-10-11 09:30:05") =
    some ("Focus", "1m30s", "2026-10-11 09:30:05") := rfl
example : parseHistoryLine (historyLine ⟨"a|b", 90000000000⟩ "2026-10-11 09:30:05") = none := rfl

/-! ### Queue scheduling

The main loop (main.go:137-182) pops the head of `taskQueue` when it is
non-empty and runs it; `processCommand` appends accepted tasks at the
tail.  Both mutations happen under `queueMux`, so an execution is an
interleaving of whole push and pop steps, modelled as an event list. -/

/-- One serialized event on the shared queue: a dispatched command line,
or the scheduler popping the head task to run it. -/
inductive QEv
  | cmdLine (line : String)
  | popRun
  deriving DecidableEq, Repr

/-- Effect of one event on `(tasks run so far, pending queue)`:
a command mutates the queue via `applyAction`; a pop removes the head
`taskQueue[0]` and runs it (main.go:143-146), doing nothing when the
queue is empty (the loop only pops after seeing `hasTasks`). -/
def queueStep : List Task × List Task → QEv → List Task × List Task
  | (ran, q), .cmdLine l => (ran, applyAction (processCommand l) q)
  | (ran, q), .popRun =>
    match q with
    | [] => (ran, [])
    | t :: rest => (ran ++ [t], rest)

/-- Run an event sequence from process start (empty queue, nothing run). -/
def runSchedule (evs : List QEv) : List Task × List Task :=
  evs.foldl queueStep ([], [])

/-- The task an event enqueues, if any: exactly the accepted `add`
commands produce one. -/
def acceptedOf : QEv → Option Task
  | .cmdLine l =>
    match processCommand l with
    | .added n d => some ⟨n, d⟩
    | _ => none
  | .popRun => none

/-- All tasks accepted over an event sequence, in acceptance order. -/
def acceptedTasks (evs : List QEv) : List Task := evs.filterMap acceptedOf

/-! ### Active-mode trace of the main loop

In active mode (main.go:142-170) the loop pops one task, spawns its
timer goroutine, writes the history record (reporting, but otherwise
ignoring, a write error), and then selects between arriving command
lines and the `done` channel of the timer until completion is observed. -/

/-- One observable event of an active-mode iteration of `main`. -/
inductive MEv
  | popped (t : Task)
  | timerStarted (t : Task)
  | historyAttempt (t : Task) (ok : Bool)
  | logErrorReported (t : Task)
  | cmdProcessed (line : String)
  | timerDoneObserved (t : Task)
  | exited
  deriving DecidableEq, Repr

/-- The inner `select` loop (main.go:159-169) while the timer of task `t`
runs: each command line arriving before natural completion is dispatched
as it arrives (`exit` terminates the process on the spot, main.go:186-189);
once the pre-completion arrivals are exhausted the `done` close is
observed and the loop proceeds to the next task. -/
def waitLoop (t : Task) (q : List Task) : List String → List MEv × List Task × Bool
  | [] => ([.timerDoneObserved t], q, false)
  | c :: cs =>
    if asciiLower c = "exit" then ([.cmdProcessed c, .exited], q, true)
    else
      let r := waitLoop t (applyAction (processCommand c) q) cs
      (.cmdProcessed c :: r.1, r.2)

/-- One active-mode iteration (main.go:142-170): pop `t`, spawn its
timer, attempt the history write (with `logOk` the outcome of
`logHistory`, and the error report when it fails), then service arriving
commands until completion.  Returns the event trace, the final pending
queue, and whether the process exited. -/
def activeIteration (t : Task) (logOk : Bool) (q : List Task) (arrivals : List String) :
    List MEv × List Task × Bool :=
  let logEvs :=
    if logOk then [MEv.historyAttempt t true]
    else [MEv.historyAttempt t false, MEv.logErrorReported t]
  let r := waitLoop t q arrivals
  (MEv.popped t :: MEv.timerStarted t :: logEvs ++ r.1, r.2)

/-- Whether an event is the history-write attempt. -/
def isHistoryAttempt : MEv → Bool
  | .historyAttempt _ _ => true
  | _ => false

/-- Whether an event is the observation of timer completion. -/
def isDoneObserved : MEv → Bool
  | .timerDoneObserved _ => true
  | _ => false

example : activeIteration ⟨"T", 1000000000⟩ false [] ["add X -m 5", "exit"] =
    ([.popped ⟨"T", 1000000000⟩, .timerStarted ⟨"T", 1000000000⟩,
      .historyAttempt ⟨"T", 1000000000⟩ false, .logErrorReported ⟨"T", 1000000000⟩,
      .cmdProcessed "add X -m 5", .cmdProcessed "exit", .exited],
     [⟨"X", 300000000000⟩], true) := rfl

/-! ### Helper lemmas -/

lemma flagsIdx_go_eq_zero {l : List (List Char)} (hl : ∀ a ∈ l, hasPrefixChars ['-'] a = false) :
    ∀ i, flagsIdxGo i l = 0 := by
  induction l with
  | nil => intro i; rfl
  | cons a rest ih =>
    intro i
    have ha := hl a (by simp)
    simp only [flagsIdxGo, ha, Bool.false_eq_true, if_false]
    exact ih (fun b hb => hl b (by simp [hb])) (i + 1)

lemma addPrefix_shape {l : List Char} (h : hasPrefixChars "add ".data l = true) :
    ∃ rest, l = 'a' :: 'd' :: 'd' :: ' ' :: rest := by
  match l with
  | [] => simp [hasPrefixChars] at h
  | c1 :: l1 =>
    match l1 with
    | [] => simp [hasPrefixChars] at h
    | c2 :: l2 =>
      match l2 with
      | [] => simp [hasPrefixChars] at h
      | c3 :: l3 =>
        match l3 with
        | [] => simp [hasPrefixChars] at h
        | c4 :: l4 =>
          simp only [hasPrefixChars, Bool.and_eq_true, beq_iff_eq] at h
          obtain ⟨h1, h2, h3, h4, -⟩ := h
          subst h1; subst h2; subst h3; subst h4
          exact ⟨l4, rfl⟩

lemma asciiLower_add_ne_exit {cmd : String} (h : hasPrefixChars "add ".data cmd.data = true) :
    asciiLower cmd ≠ "exit" := by
  obtain ⟨rest, hdata⟩ := addPrefix_shape h
  intro heq
  have : (asciiLower cmd).data = "exit".data := by rw [heq]
  rw [asciiLower] at this
  simp only [hdata, List.map_cons] at this
  have : asciiLowerChar 'a' = 'e' := by injection this
  exact absurd this (by decide)

/-- Claim dispatch inversion: an accepted command is an `add` line past
both leading checks, with a positive flag index. -/
lemma processCommand_added_inv {cmd : String} {n : String} {d : Int}
    (h : processCommand cmd = Action.added n d) :
    n = ⟨joinSpace ((addArgs cmd).take (flagsIdx (addArgs cmd)))⟩ ∧
      parseDuration ⟨joinSpace ((addArgs cmd).drop (flagsIdx (addArgs cmd)))⟩ = .ok d := by
  unfold processCommand at h
  split at h
  · exact absurd h (by simp)
  · split at h
    · exact absurd h (by simp)
    · split at h
      · exact absurd h (by simp)
      · cases hd : parseDuration ⟨joinSpace ((addArgs cmd).drop (flagsIdx (addArgs cmd)))⟩ with
        | error e => rw [hd] at h; simp at h
        | ok d2 =>
          rw [hd] at h
          simp only at h
          split at h
          · exact absurd h (by simp)
          · obtain ⟨hn, hd2⟩ := Action.added.inj h
            exact ⟨hn.symm, congrArg Except.ok hd2⟩

lemma processCommand_added_not_exit {cmd : String} {n : String} {d : Int}
    (h : processCommand cmd = Action.added n d) : asciiLower cmd ≠ "exit" := by
  intro heq
  unfold processCommand at h
  rw [if_pos heq] at h
  exact absurd h (by simp)

/-! ### Claim C1 -/

/-- Claim C1 counterexample: the line `add X` has no flag token, and the
code rejects it as an invalid command format — not as a non-positive
duration. -/
theorem claim1_counterexample :
    processCommand "add X" = Action.invalidFormat ∧
      processCommand "add X" ≠ Action.nonPositive := by
  exact ⟨by decide, by decide⟩

/-- Claim C1 (amended): a dispatched `add` line whose arguments contain no
token starting with `-` leaves the flag-index sentinel at 0 and is
rejected as invalid command format; the duration parser is never reached
and no task is enqueued.  A parsed zero duration, as in `add X -m 0`, is
what gets rejected as non-positive. -/
theorem claim1_no_flag_token_invalid_format :
    (∀ cmd : String, hasPrefixChars "add ".data cmd.data = true →
      (∀ a ∈ addArgs cmd, hasPrefixChars ['-'] a = false) →
      processCommand cmd = Action.invalidFormat ∧
        ∀ q, applyAction (processCommand cmd) q = q) ∧
    processCommand "add X -m 0" = Action.nonPositive := by
  constructor
  · intro cmd hpre hnone
    have hne : asciiLower cmd ≠ "exit" := asciiLower_add_ne_exit hpre
    have hfi : flagsIdx (addArgs cmd) = 0 := flagsIdx_go_eq_zero hnone 0
    have hmain : processCommand cmd = Action.invalidFormat := by
      unfold processCommand
      rw [if_neg hne]
      simp [hpre, hfi]
    exact ⟨hmain, fun q => by rw [hmain]; rfl⟩
  · decide

/-- Witness for the amended claim C1 at the line `add X`. -/
theorem claim1_witness :
    processCommand "add X" = Action.invalidFormat ∧
      applyAction (processCommand "add X") [] = [] := by
  have h := claim1_no_flag_token_invalid_format.1 "add X" (by decide) (by decide)
  exact ⟨h.1, h.2 []⟩

/-! ### Claim C3 -/

/-- Claim C3: `parseDuration` sums the `-h`/`-m`/`-s` flags (each
defaulting to 0) as hours, minutes and seconds — `-h 1 -m 2 -s 3` gives
exactly 3723 seconds (3723000000000 ns) — and whenever one of the three
flags parses to a negative integer the result is the parse error
`negative values not allowed`, never a duration. -/
theorem claim3_duration_sum :
    (∀ (input : String) (st : FlagState),
      parseFlags none (goFieldsChars input.data) ⟨0, 0, 0⟩ = .ok st →
      st.h < 0 ∨ st.m < 0 ∨ st.s < 0 →
      parseDuration input = .error "negative values not allowed") ∧
    parseDuration "-h 1 -m 2 -s 3" = .ok 3723000000000 ∧
    parseDuration "-s -1" = .error "negative values not allowed" := by
  refine ⟨?_, rfl, rfl⟩
  intro input st hok hneg
  unfold parseDuration
  rw [hok]
  simp only [hneg, if_pos]

/-- Witness for claim C3 at the input `-s -1`, whose `s` flag parses to
`-1`. -/
theorem claim3_witness :
    parseDuration "-s -1" = .error "negative values not allowed" :=
  claim3_duration_sum.1 "-s -1" ⟨0, 0, -1⟩ rfl (by decide)

/-! ### Claim C4 -/

/-- Claim C4 counterexample: the input `-m 5 junk` contains the token
`junk`, which is not a recognized flag token, yet `parseDuration`
silently ignores it and returns the 5-minute duration. -/
theorem claim4_counterexample :
    parseDuration "-m 5 junk" = .ok 300000000000 := rfl

/-- Claim C4 (amended): `parseDuration` errors on a dash token naming an
unregistered flag, on a numeric value that fails to parse, and on a
negative value — but the flag scan stops without error at the first token
not starting with `-`, silently discarding it and everything after it. -/
theorem claim4_stop_at_nonflag :
    (∀ (rest : List (List Char)) (st : FlagState),
      parseFlags none (['-', 'x'] :: rest) st = .error "flag provided but not defined: -x") ∧
    parseDuration "-m foo" = .error "invalid value \"foo\" for flag -m: parse error" ∧
    (∀ (tok : List Char) (rest : List (List Char)) (st : FlagState),
      tok.length < 2 ∨ tok.head? ≠ some '-' →
      parseFlags none (tok :: rest) st = .ok st) ∧
    parseDuration "-m 5 junk" = .ok 300000000000 := by
  refine ⟨?_, rfl, ?_, rfl⟩
  · intro rest st
    rw [parseFlags]; rfl
  · intro tok rest st h
    rw [parseFlags, if_pos h]

/-- Witness for the amended claim C4: the scan stops at the bare token
`junk`. -/
theorem claim4_witness :
    parseFlags none ("junk".data :: []) ⟨0, 0, 0⟩ = .ok ⟨0, 0, 0⟩ :=
  claim4_stop_at_nonflag.2.2.1 "junk".data [] ⟨0, 0, 0⟩ (by decide)

/-! ### Claim C5 -/

lemma runSchedule_invariant :
    ∀ (evs : List QEv) (ran q : List Task),
      (evs.foldl queueStep (ran, q)).1 ++ (evs.foldl queueStep (ran, q)).2 =
        ran ++ q ++ acceptedTasks evs := by
  intro evs
  induction evs with
  | nil => intro ran q; simp [acceptedTasks]
  | cons e rest ih =>
    intro ran q
    rw [List.foldl_cons]
    cases e with
    | cmdLine l =>
      rw [show queueStep (ran, q) (QEv.cmdLine l) = (ran, applyAction (processCommand l) q) from rfl]
      rw [ih]
      cases hpc : processCommand l with
      | added n d =>
        simp [applyAction, acceptedTasks, acceptedOf, hpc, List.filterMap_cons]
      | exitCmd => simp [applyAction, acceptedTasks, acceptedOf, hpc, List.filterMap_cons]
      | unknown => simp [applyAction, acceptedTasks, acceptedOf, hpc, List.filterMap_cons]
      | invalidFormat => simp [applyAction, acceptedTasks, acceptedOf, hpc, List.filterMap_cons]
      | parseErr e => simp [applyAction, acceptedTasks, acceptedOf, hpc, List.filterMap_cons]
      | nonPositive => simp [applyAction, acceptedTasks, acceptedOf, hpc, List.filterMap_cons]
    | popRun =>
      cases q with
      | nil =>
        rw [show queueStep (ran, []) QEv.popRun = (ran, []) from rfl, ih]
        simp [acceptedTasks, acceptedOf, List.filterMap_cons]
      | cons t qrest =>
        rw [show queueStep (ran, t :: qrest) QEv.popRun = (ran ++ [t], qrest) from rfl, ih]
        simp [acceptedTasks, acceptedOf, List.filterMap_cons]

/-- Claim C5: for any interleaving of dispatched command lines and
scheduler pops starting from the empty queue, the tasks run so far
followed by the still-pending queue are exactly the accepted `add` tasks
in acceptance order — so tasks run in strict FIFO order and none is lost
or duplicated; concretely, two accepted adds are popped back in their
acceptance order. -/
theorem claim5_fifo :
    (∀ evs : List QEv, (runSchedule evs).1 ++ (runSchedule evs).2 = acceptedTasks evs) ∧
    runSchedule [QEv.cmdLine "add A -m 1", QEv.cmdLine "add B -m 2", QEv.popRun, QEv.popRun] =
      ([⟨"A", 60000000000⟩, ⟨"B", 120000000000⟩], []) := by
  refine ⟨fun evs => ?_, rfl⟩
  have h := runSchedule_invariant evs [] []
  simpa [runSchedule] using h

/-! ### Claim C2 -/

/-- Claim C2: for a dispatched `add` line that is accepted, the task name
is the tokens before the first `-`-starting token joined by single
spaces, and the tokens from that one on are what the duration parser
received; `add Study Session -m 25` yields the task `Study Session` with
25 minutes, and `add -m 5` (flag first) is rejected with no task
enqueued. -/
theorem claim2_name_flag_split :
    (∀ (cmd n : String) (d : Int), processCommand cmd = Action.added n d →
      n = ⟨joinSpace ((addArgs cmd).take (flagsIdx (addArgs cmd)))⟩ ∧
        parseDuration ⟨joinSpace ((addArgs cmd).drop (flagsIdx (addArgs cmd)))⟩ = .ok d) ∧
    processCommand "add Study Session -m 25" = Action.added "Study Session" 1500000000000 ∧
    processCommand "add -m 5" = Action.invalidFormat ∧
    (∀ q, applyAction (processCommand "add -m 5") q = q) := by
  exact ⟨fun cmd n d h => processCommand_added_inv h, by decide, by decide, fun q => rfl⟩

/-- Witness for claim C2 at the accepted line `add Study Session -m 25`. -/
theorem claim2_witness :
    "Study Session" =
      (⟨joinSpace ((addArgs "add Study Session -m 25").take
        (flagsIdx (addArgs "add Study Session -m 25")))⟩ : String) ∧
      parseDuration ⟨joinSpace ((addArgs "add Study Session -m 25").drop
        (flagsIdx (addArgs "add Study Session -m 25")))⟩ = .ok 1500000000000 :=
  claim2_name_flag_split.1 "add Study Session -m 25" "Study Session" 1500000000000 (by decide)

/-! ### Claim C6 -/

lemma timerObs_shape :
    ∀ n : Nat, timerObs n = ((List.range' 1 (n - 1)).reverse.map Obs.progress) ++ [.completed]
  | 0 => rfl
  | 1 => rfl
  | n + 2 => by
    have ih := timerObs_shape (n + 1)
    rw [timerObs, ih]
    show Obs.progress (n + 1) :: ((List.range' 1 n).reverse.map Obs.progress) ++ [.completed] = _
    rw [show (n + 2 - 1) = n + 1 from rfl, List.range'_concat]
    simp
    omega

/-- Claim C6 counterexample: a 3-second timer emits 2 progress
observations, not 3, before its completion observation. -/
theorem claim6_counterexample : (timerObs 3).countP isProgress ≠ 3 := by decide

/-- Claim C6 (amended): a 3-second timer under the one-second tick
cadence emits exactly 2 progress observations, at remaining 2s and 1s,
their values non-increasing, followed by the single terminal completion
observation — which, for a timer of any whole duration, is always the
sole terminal observation and occurs exactly once. -/
theorem claim6_tick_protocol :
    timerObs 3 = [.progress 2, .progress 1, .completed] ∧
    (timerObs 3).countP isProgress = 2 ∧
    List.Chain' (fun a b => b ≤ a) (progressValues (timerObs 3)) ∧
    (∀ n : Nat, (timerObs n).countP isCompletedObs = 1 ∧
      timerObs n = ((List.range' 1 (n - 1)).reverse.map Obs.progress) ++ [.completed]) := by
  refine ⟨rfl, by decide, ?_, fun n => ⟨?_, timerObs_shape n⟩⟩
  · rw [show progressValues (timerObs 3) = [2, 1] from rfl]
    simp [List.chain'_cons]
  rw [timerObs_shape n]
  simp [List.countP_append, List.countP_map, isCompletedObs, Function.comp_def]

/-! ### Claim C7 -/

/-- Claim C7: in every active-mode iteration, for either outcome of the
history write, the write attempt appears in the trace and everything
before it (it happens right at the pop) precedes any observation of the
timer finishing; and the timer is started — and the rest of the iteration
is identical — whether the log write succeeds or fails. -/
theorem claim7_log_at_pop :
    ∀ (t : Task) (logOk : Bool) (q : List Task) (arrivals : List String),
      MEv.timerStarted t ∈ (activeIteration t logOk q arrivals).1 ∧
      MEv.historyAttempt t logOk ∈ (activeIteration t logOk q arrivals).1 ∧
      (((activeIteration t logOk q arrivals).1.takeWhile fun e => !(isHistoryAttempt e)).all
        fun e => !(isDoneObserved e)) = true ∧
      (activeIteration t true q arrivals).2 = (activeIteration t false q arrivals).2 := by
  intro t logOk q arrivals
  cases logOk <;>
    simp [activeIteration, isHistoryAttempt, isDoneObserved]

/-! ### Claim C9 -/

/-- Claim C9: while a timer is active, an arriving accepted `add` command
has its task appended to the queue at the moment it is processed —
without the completion of the running timer being consumed first — and an
arriving `exit` command terminates the process on the spot: the trace
ends immediately and the completion of the timer is never observed. -/
theorem claim9_concurrent_service :
    (∀ (t : Task) (q : List Task) (cs : List String),
      waitLoop t q ("exit" :: cs) = ([.cmdProcessed "exit", .exited], q, true) ∧
      MEv.timerDoneObserved t ∉ (waitLoop t q ("exit" :: cs)).1) ∧
    (∀ (t : Task) (q : List Task) (c : String) (cs : List String) (n : String) (d : Int),
      processCommand c = .added n d →
      waitLoop t q (c :: cs) =
        (MEv.cmdProcessed c :: (waitLoop t (q ++ [⟨n, d⟩]) cs).1,
          (waitLoop t (q ++ [⟨n, d⟩]) cs).2)) := by
  constructor
  · intro t q cs
    constructor
    · rw [waitLoop, if_pos (show asciiLower "exit" = "exit" from rfl)]
    · rw [waitLoop, if_pos (show asciiLower "exit" = "exit" from rfl)]
      simp
  · intro t q c cs n d h
    have hne : asciiLower c ≠ "exit" := processCommand_added_not_exit h
    rw [waitLoop, if_neg hne, h]
    simp [applyAction]

/-- Witness for claim C9: the accepted line `add X -m 5` arriving while
the timer for task `T` runs is enqueued at its processing step. -/
theorem claim9_witness :
    waitLoop ⟨"T", 1000000000⟩ [] ("add X -m 5" :: []) =
      (MEv.cmdProcessed "add X -m 5" ::
        (waitLoop ⟨"T", 1000000000⟩ ([] ++ [⟨"X", 300000000000⟩]) []).1,
        (waitLoop ⟨"T", 1000000000⟩ ([] ++ [⟨"X", 300000000000⟩]) []).2) :=
  claim9_concurrent_service.2 ⟨"T", 1000000000⟩ [] "add X -m 5" [] "X" 300000000000 (by decide)

/-! ### History format lemmas -/

/-- The characters `Duration.String` can emit: fixed unit, separator and
sign characters, or a decimal digit. -/
def goodDurChar (c : Char) : Prop :=
  c ∈ (['0', 's', 'n', 'µ', 'm', 'h', '.', '-'] : List Char) ∨ ∃ m, m < 10 ∧ c = digitCh m

lemma digitCh_bounds : ∀ m, m < 10 → digitCh m ≠ '|' ∧ digitCh m ≠ '\n' := by decide

lemma mem_natDigitsGo :
    ∀ (fuel n : Nat) (acc : List Char) (c : Char),
      c ∈ natDigitsGo fuel n acc → c ∈ acc ∨ ∃ m, m < 10 ∧ c = digitCh m := by
  intro fuel
  induction fuel with
  | zero =>
    intro n acc c h
    rw [natDigitsGo] at h
    rcases List.mem_cons.mp h with h | h
    · exact Or.inr ⟨n % 10, Nat.mod_lt n (by norm_num), h⟩
    · exact Or.inl h
  | succ fuel ih =>
    intro n acc c h
    rw [natDigitsGo] at h
    by_cases hn : n < 10
    · rw [if_pos hn] at h
      rcases List.mem_cons.mp h with h | h
      · exact Or.inr ⟨n, hn, h⟩
      · exact Or.inl h
    · rw [if_neg hn] at h
      rcases ih (n / 10) (digitCh (n % 10) :: acc) c h with h | h
      · rcases List.mem_cons.mp h with h | h
        · exact Or.inr ⟨n % 10, Nat.mod_lt n (by norm_num), h⟩
        · exact Or.inl h
      · exact Or.inr h

lemma mem_natDigits {n : Nat} {c : Char} (h : c ∈ natDigits n) :
    ∃ m, m < 10 ∧ c = digitCh m := by
  rcases mem_natDigitsGo n n [] c h with h | h
  · simp at h
  · exact h

lemma good_natDigits {n : Nat} {c : Char} (h : c ∈ natDigits n) : goodDurChar c :=
  Or.inr (mem_natDigits h)

lemma mem_dropTrailingZeros {l : List Char} {c : Char} (h : c ∈ dropTrailingZeros l) :
    c ∈ l := by
  unfold dropTrailingZeros at h
  rw [List.mem_reverse] at h
  exact List.mem_reverse.mp ((List.dropWhile_sublist _).mem h)

lemma mem_padZeros {l : List Char} {w : Nat} {c : Char} (h : c ∈ padZeros l w) :
    c = '0' ∨ c ∈ l := by
  unfold padZeros at h
  rcases List.mem_append.mp h with h | h
  · exact Or.inl (List.eq_of_mem_replicate h)
  · exact Or.inr h

lemma good_fmtFrac {u prec : Nat} {c : Char} (h : c ∈ (fmtFrac u prec).1) : goodDurChar c := by
  unfold fmtFrac at h
  by_cases h0 : u % 10 ^ prec = 0
  · simp [h0] at h
  · simp only [h0, if_false] at h
    rcases List.mem_cons.mp h with rfl | h
    · exact Or.inl (by decide)
    · rcases mem_padZeros (mem_dropTrailingZeros h) with rfl | h3
      · exact Or.inl (by decide)
      · exact good_natDigits h3

lemma good_durationCore : ∀ {u : Nat} {c : Char}, c ∈ durationCore u → goodDurChar c := by
  intro u c h
  unfold durationCore at h
  by_cases h1 : u < 1000000000
  · rw [if_pos h1] at h
    by_cases h2 : u < 1000
    · rw [if_pos h2] at h
      rcases List.mem_append.mp h with h | h
      · exact good_natDigits h
      · fin_cases h <;> exact Or.inl (by decide)
    · rw [if_neg h2] at h
      by_cases h3 : u < 1000000
      · rw [if_pos h3] at h
        rcases List.mem_append.mp h with h | h
        · rcases List.mem_append.mp h with h | h
          · exact good_natDigits h
          · exact good_fmtFrac h
        · fin_cases h <;> exact Or.inl (by decide)
      · rw [if_neg h3] at h
        rcases List.mem_append.mp h with h | h
        · rcases List.mem_append.mp h with h | h
          · exact good_natDigits h
          · exact good_fmtFrac h
        · fin_cases h <;> exact Or.inl (by decide)
  · rw [if_neg h1] at h
    by_cases h4 : (fmtFrac u 9).2 / 60 = 0
    · rw [if_pos h4] at h
      rcases List.mem_append.mp h with h | h
      · rcases List.mem_append.mp h with h | h
        · exact good_natDigits h
        · exact good_fmtFrac h
      · fin_cases h <;> exact Or.inl (by decide)
    · rw [if_neg h4] at h
      by_cases h5 : (fmtFrac u 9).2 / 60 / 60 = 0
      · rw [if_pos h5] at h
        rcases List.mem_append.mp h with h | h
        · exact good_natDigits h
        rcases List.mem_cons.mp h with rfl | h
        · exact Or.inl (by decide)
        rcases List.mem_append.mp h with h | h
        · rcases List.mem_append.mp h with h | h
          · exact good_natDigits h
          · exact good_fmtFrac h
        · fin_cases h <;> exact Or.inl (by decide)
      · rw [if_neg h5] at h
        rcases List.mem_append.mp h with h | h
        · exact good_natDigits h
        rcases List.mem_cons.mp h with rfl | h
        · exact Or.inl (by decide)
        rcases List.mem_append.mp h with h | h
        · exact good_natDigits h
        rcases List.mem_cons.mp h with rfl | h
        · exact Or.inl (by decide)
        rcases List.mem_append.mp h with h | h
        · rcases List.mem_append.mp h with h | h
          · exact good_natDigits h
          · exact good_fmtFrac h
        · fin_cases h <;> exact Or.inl (by decide)

lemma good_durationChars {d : Int} {c : Char} (h : c ∈ durationChars d) : goodDurChar c := by
  unfold durationChars at h
  by_cases h0 : d = 0
  · rw [if_pos h0] at h
    fin_cases h <;> exact Or.inl (by decide)
  · rw [if_neg h0] at h
    by_cases hneg : d < 0
    · rw [if_pos hneg] at h
      rcases List.mem_cons.mp h with rfl | h
      · exact Or.inl (by decide)
      · exact good_durationCore h
    · rw [if_neg hneg] at h
      exact good_durationCore h

lemma durationString_no_pipe (d : Int) : '|' ∉ (durationString d).data := by
  intro h
  rcases good_durationChars (d := d) h with hg | ⟨m, hm, he⟩
  · exact absurd hg (by decide)
  · exact (digitCh_bounds m hm).1 he.symm

lemma durationString_no_newline (d : Int) : '\n' ∉ (durationString d).data := by
  intro h
  rcases good_durationChars (d := d) h with hg | ⟨m, hm, he⟩
  · exact absurd hg (by decide)
  · exact (digitCh_bounds m hm).2 he.symm

lemma mem_pad2 {n : Nat} {c : Char} (h : c ∈ pad2 n) :
    c = '0' ∨ ∃ m, m < 10 ∧ c = digitCh m := by
  unfold pad2 at h
  by_cases hn : n < 10
  · rw [if_pos hn] at h
    rcases List.mem_cons.mp h with rfl | h
    · exact Or.inl rfl
    · exact Or.inr (mem_natDigits h)
  · rw [if_neg hn] at h
    exact Or.inr (mem_natDigits h)

lemma mem_pad4 {n : Nat} {c : Char} (h : c ∈ pad4 n) :
    c = '0' ∨ ∃ m, m < 10 ∧ c = digitCh m := by
  unfold pad4 at h
  rcases mem_padZeros h with rfl | h
  · exact Or.inl rfl
  · exact Or.inr (mem_natDigits h)

lemma mem_formatTimestamp {y mo dd hh mi ss : Nat} {c : Char}
    (h : c ∈ (formatTimestamp y mo dd hh mi ss).data) :
    c ∈ (['-', ' ', ':', '0'] : List Char) ∨ ∃ m, m < 10 ∧ c = digitCh m := by
  unfold formatTimestamp at h
  have chunk : ∀ {sep : Char} {k : Nat}, sep ∈ (['-', ' ', ':'] : List Char) →
      c ∈ sep :: pad2 k →
      c ∈ (['-', ' ', ':', '0'] : List Char) ∨ ∃ m, m < 10 ∧ c = digitCh m := by
    intro sep k hsep hck
    rcases List.mem_cons.mp hck with rfl | hck
    · exact Or.inl (by fin_cases hsep <;> decide)
    · rcases mem_pad2 hck with rfl | hck
      · exact Or.inl (by decide)
      · exact Or.inr hck
  rcases List.mem_append.mp h with h | h
  · rcases List.mem_append.mp h with h | h
    · rcases List.mem_append.mp h with h | h
      · rcases List.mem_append.mp h with h | h
        · rcases List.mem_append.mp h with h | h
          · rcases mem_pad4 h with rfl | h
            · exact Or.inl (by decide)
            · exact Or.inr h
          · exact chunk (by decide) h
        · exact chunk (by decide) h
      · exact chunk (by decide) h
    · exact chunk (by decide) h
  · exact chunk (by decide) h

lemma formatTimestamp_no_pipe (y mo dd hh mi ss : Nat) :
    '|' ∉ (formatTimestamp y mo dd hh mi ss).data := by
  intro h
  rcases mem_formatTimestamp h with hg | ⟨m, hm, he⟩
  · exact absurd hg (by decide)
  · exact (digitCh_bounds m hm).1 he.symm

lemma formatTimestamp_no_newline (y mo dd hh mi ss : Nat) :
    '\n' ∉ (formatTimestamp y mo dd hh mi ss).data := by
  intro h
  rcases mem_formatTimestamp h with hg | ⟨m, hm, he⟩
  · exact absurd hg (by decide)
  · exact (digitCh_bounds m hm).2 he.symm

lemma splitPipeChars_ne_nil : ∀ l : List Char, splitPipeChars l ≠ [] := by
  intro l
  induction l with
  | nil => simp [splitPipeChars]
  | cons c rest ih =>
    rw [splitPipeChars]
    by_cases hc : c = '|'
    · rw [if_pos hc]; simp
    · rw [if_neg hc]
      cases hsp : splitPipeChars rest with
      | nil => simp
      | cons t ts => simp

lemma splitPipeChars_no_pipe : ∀ l : List Char, '|' ∉ l → splitPipeChars l = [l] := by
  intro l
  induction l with
  | nil => intro _; rfl
  | cons c rest ih =>
    intro h
    have hc : c ≠ '|' := fun e => h (by simp [e])
    have hr : '|' ∉ rest := fun m => h (List.mem_cons_of_mem _ m)
    rw [splitPipeChars, if_neg hc, ih hr]

lemma splitPipeChars_append :
    ∀ a r : List Char, '|' ∉ a →
      splitPipeChars (a ++ '|' :: r) = a :: splitPipeChars r := by
  intro a
  induction a with
  | nil =>
    intro r _
    rw [List.nil_append, splitPipeChars, if_pos rfl]
  | cons c arest ih =>
    intro r ha
    have hc : c ≠ '|' := fun e => ha (by simp [e])
    have ha' : '|' ∉ arest := fun m => ha (List.mem_cons_of_mem _ m)
    rw [List.cons_append, splitPipeChars, if_neg hc, ih r ha']

lemma splitPipeChars_length : ∀ l : List Char, (splitPipeChars l).length = l.count '|' + 1 := by
  intro l
  induction l with
  | nil => rfl
  | cons c rest ih =>
    rw [splitPipeChars]
    by_cases hc : c = '|'
    · rw [if_pos hc]
      simp [hc, List.count_cons, ih]
    · rw [if_neg hc]
      cases hsp : splitPipeChars rest with
      | nil => exact absurd hsp (splitPipeChars_ne_nil rest)
      | cons t ts =>
        have h2 := ih
        rw [hsp] at h2
        simp only [List.length_cons] at h2 ⊢
        rw [List.count_cons]
        simp [hc, Ne.symm hc]
        omega

lemma parseHistoryLine_eq_none {line : String}
    (h : (splitPipeChars line.data).length ≠ 3) : parseHistoryLine line = none := by
  unfold parseHistoryLine splitPipe
  rcases hsp : splitPipeChars line.data with _ | ⟨a, _ | ⟨b, _ | ⟨c, _ | ⟨d, t⟩⟩⟩⟩
  · rfl
  · rfl
  · rfl
  · rw [hsp] at h; simp at h
  · rfl

lemma historyLine_data (t : Task) (ts : String) :
    (historyLine t ts).data =
      t.name.data ++ '|' :: ((durationString t.durationNs).data ++ '|' :: ts.data) := by
  unfold historyLine
  have hp : ("|" : String).data = ['|'] := rfl
  simp [String.data_append, hp]

lemma parseHistoryLine_roundtrip {t : Task} {ts : String}
    (hn : '|' ∉ t.name.data) (hts : '|' ∉ ts.data) :
    parseHistoryLine (historyLine t ts) = some (t.name, durationString t.durationNs, ts) := by
  unfold parseHistoryLine splitPipe
  rw [historyLine_data, splitPipeChars_append _ _ hn,
    splitPipeChars_append _ _ (durationString_no_pipe t.durationNs),
    splitPipeChars_no_pipe _ hts]
  rfl

/-! ### Claim C8 -/

/-- Claim C8: logging the task `Focus` with duration 90 seconds appends
exactly one line — the record text contains a single newline, at the
end — whose three `|`-separated fields are the name `Focus`, the
canonical duration text `1m30s`, and the `YYYY-MM-DD HH:MM:SS`
timestamp; reading that line back through the splitter of `showHistory`
reconstructs exactly those three fields. -/
theorem claim8_roundtrip :
    ∀ y mo dd hh mi ss : Nat,
      durationString (90000000000 : Int) = "1m30s" ∧
      (logEntry ⟨"Focus", 90000000000⟩ (formatTimestamp y mo dd hh mi ss)).data.count '\n' = 1 ∧
      parseHistoryLine (historyLine ⟨"Focus", 90000000000⟩ (formatTimestamp y mo dd hh mi ss)) =
        some ("Focus", "1m30s", formatTimestamp y mo dd hh mi ss) := by
  intro y mo dd hh mi ss
  refine ⟨rfl, ?_, ?_⟩
  · unfold logEntry
    rw [String.data_append, historyLine_data]
    have h1 : ("Focus" : String).data.count '\n' = 0 := by decide
    have h2 : ((durationString (90000000000 : Int)).data).count '\n' = 0 := by
      exact List.count_eq_zero.mpr (durationString_no_newline _)
    have h3 : ((formatTimestamp y mo dd hh mi ss).data).count '\n' = 0 :=
      List.count_eq_zero.mpr (formatTimestamp_no_newline y mo dd hh mi ss)
    simp [List.count_append, List.count_cons, h1, h2, h3]
  · exact parseHistoryLine_roundtrip (t := ⟨"Focus", 90000000000⟩) (by decide)
      (formatTimestamp_no_pipe y mo dd hh mi ss)

/-! ### Claim C10 -/

/-- Claim C10: a task whose name contains `|` produces a history line
that splits into more than three fields, so `showHistory` silently skips
the record; the write-then-read round trip holds exactly for names free
of the `|` delimiter (the duration text and timestamp never contain
one). -/
theorem claim10_pipe_name_breaks_roundtrip :
    (∀ (t : Task) (ts : String), '|' ∈ t.name.data → '|' ∉ ts.data →
      parseHistoryLine (historyLine t ts) = none) ∧
    (∀ (t : Task) (ts : String), '|' ∉ t.name.data → '|' ∉ ts.data →
      parseHistoryLine (historyLine t ts) = some (t.name, durationString t.durationNs, ts)) := by
  constructor
  · intro t ts hmem hts
    apply parseHistoryLine_eq_none
    rw [historyLine_data, splitPipeChars_length]
    have h1 : 0 < t.name.data.count '|' := List.count_pos_iff.mpr hmem
    have h2 : (durationString t.durationNs).data.count '|' = 0 :=
      List.count_eq_zero.mpr (durationString_no_pipe _)
    have h3 : ts.data.count '|' = 0 := List.count_eq_zero.mpr hts
    simp [List.count_append, List.count_cons, h2, h3]
    omega
  · intro t ts hn hts
    exact parseHistoryLine_roundtrip hn hts

/-- Witness for claim C10: the name `a|b` is skipped on read-back, the
pipe-free name `Work` round-trips. -/
theorem claim10_witness :
    parseHistoryLine (historyLine ⟨"a|b", 60000000000⟩ "2026-01-02 03:04:05") = none ∧
    parseHistoryLine (historyLine ⟨"Work", 60000000000⟩ "2026-01-02 03:04:05") =
      some ("Work", durationString 60000000000, "2026-01-02 03:04:05") :=
  ⟨claim10_pipe_name_breaks_roundtrip.1 ⟨"a|b", 60000000000⟩ "2026-01-02 03:04:05"
      (by decide) (by decide),
    claim10_pipe_name_breaks_roundtrip.2 ⟨"Work", 60000000000⟩ "2026-01-02 03:04:05"
      (by decide) (by decide)⟩

end Timer
